import Mathlib

set_option autoImplicit false

/-!
Verification development for the iron-replay-player web client:
the IndexedDB frame persistence layer (`src/lib/pdu-store.ts`),
the folder-ingestion pipeline (`src/lib/FolderUploader.svelte`),
and the playback pacing loop (`src/lib/ReplayPlayer.svelte`,
`src/routes/player/+page.svelte`).
-/

namespace IronReplay

/-- Raw frame bytes: the `Uint8Array` payloads stored in IndexedDB. -/
abbrev Bytes := List Nat

/--
The IndexedDB object store `frames` of database `rdp-pdus`
(`pdu-store.ts`): a finite map from non-negative integer keys to byte
blobs.  IndexedDB object stores are ordered by key, so the store is
embedded as an association list strictly sorted by key.
-/
abbrev Store := List (Nat × Bytes)

/--
Key-ordered upsert, the semantics of `IDBObjectStore.put(data, index)`:
inserting at an existing key replaces the old value, otherwise the new
entry is placed at its key position.
-/
def putSorted (i : Nat) (b : Bytes) : Store → Store
  | [] => [(i, b)]
  | (k, v) :: rest =>
    if i < k then (i, b) :: (k, v) :: rest
    else if i = k then (i, b) :: rest
    else (k, v) :: putSorted i b rest

/-- The function `storeFrame(index, data)` from `pdu-store.ts`: upserts one frame. -/
def storeFrame (s : Store) (i : Nat) (b : Bytes) : Store :=
  putSorted i b s

/--
The function `getFrame(index)` from `pdu-store.ts`: point lookup via
`IDBObjectStore.get(index)`; a missing key resolves to `undefined`,
embedded as `none`.
-/
def getFrame (s : Store) (i : Nat) : Option Bytes :=
  match s with
  | [] => none
  | (k, v) :: rest => if k = i then some v else getFrame rest i

/-- The function `clearFrames()` from `pdu-store.ts`: deletes all stored frames. -/
def clearFrames : Store := []

/-- The function `getFrameCount()` from `pdu-store.ts`: `IDBObjectStore.count()`. -/
def getFrameCount (s : Store) : Nat := s.length

/-- The sortedness invariant of the key-ordered store representation. -/
def StoreSorted (s : Store) : Prop :=
  s.Pairwise (fun p q => p.1 < q.1)

theorem getFrame_putSorted_self (s : Store) (i : Nat) (b : Bytes) :
    getFrame (putSorted i b s) i = some b := by
  induction s with
  | nil => simp [putSorted, getFrame]
  | cons hd tl ih =>
    obtain ⟨k, v⟩ := hd
    by_cases h1 : i < k
    · simp [putSorted, getFrame, h1]
    · by_cases h2 : i = k
      · simp [putSorted, getFrame, h1, h2]
      · simp [putSorted, getFrame, h1, h2, ih, Ne.symm h2]

theorem getFrame_putSorted_ne (s : Store) (i j : Nat) (b : Bytes)
    (hij : i ≠ j) :
    getFrame (putSorted i b s) j = getFrame s j := by
  induction s with
  | nil => simp [putSorted, getFrame, hij]
  | cons hd tl ih =>
    obtain ⟨k, v⟩ := hd
    by_cases h1 : i < k
    · simp [putSorted, getFrame, h1, hij]
    · by_cases h2 : i = k
      · subst h2
        simp [putSorted, getFrame, h1, hij]
      · simp [putSorted, getFrame, h1, h2, ih]

/-! ### File names, natural sort and candidate filtering
(`FolderUploader.svelte`) -/

/-- The leading run of digits of a name: the JS match `/^(\d+)/`. -/
def leadingDigits (s : String) : List Char :=
  s.data.takeWhile Char.isDigit

/-- Decimal value of a digit run, as computed by `parseInt(run, 10)`. -/
def digitsVal (ds : List Char) : Nat :=
  ds.foldl (fun n c => 10 * n + (c.toNat - 48)) 0

/--
The call `parseInt(file.name, 10)`: parses the leading digit run of the name.
Frame candidates have pure-digit names, so this is their full value.
-/
def parseIntName (s : String) : Nat :=
  digitsVal (leadingDigits s)

/-- The frame-candidate test `/^\d+$/.test(f.name)`. -/
def isPureDigits (s : String) : Bool :=
  !s.data.isEmpty && s.data.all Char.isDigit

/--
Modelled from the spec: `a.localeCompare(b, undefined, { numeric: true })`,
the locale-aware, numeric-aware string comparison the sort falls back to.
The platform collator is not repository code; it is modelled as comparing
maximal digit runs by numeric value and other characters by code point
(digits collate before non-digits).  Fuel (bounded by the total length)
keeps the recursion structural so that the model evaluates by `decide`.
-/
def localeCmpNumericAux : Nat → List Char → List Char → Ordering
  | 0, _, _ => Ordering.eq
  | _ + 1, [], [] => Ordering.eq
  | _ + 1, [], _ :: _ => Ordering.lt
  | _ + 1, _ :: _, [] => Ordering.gt
  | fuel + 1, x :: xs, y :: ys =>
    if x.isDigit && y.isDigit then
      match compare (digitsVal ((x :: xs).takeWhile Char.isDigit))
          (digitsVal ((y :: ys).takeWhile Char.isDigit)) with
      | Ordering.eq =>
        localeCmpNumericAux fuel (xs.dropWhile Char.isDigit)
          (ys.dropWhile Char.isDigit)
      | o => o
    else if x.isDigit then Ordering.lt
    else if y.isDigit then Ordering.gt
    else
      match compare x.toNat y.toNat with
      | Ordering.eq => localeCmpNumericAux fuel xs ys
      | o => o

/-- See `localeCmpNumericAux`. -/
def localeCompareNumeric (a b : String) : Ordering :=
  localeCmpNumericAux (a.data.length + b.data.length + 1) a.data b.data

/--
The comparator of `naturalSort` in `FolderUploader.svelte`: when both
names match `/^(\d+)/`, compare `parseInt` of the runs numerically
(the JS comparator returns their difference; only its sign matters to
the sort, embedded as an `Ordering`); otherwise fall back to
`localeCompare` with numeric collation.
-/
def naturalCompareWith (fallback : String → String → Ordering)
    (a b : String) : Ordering :=
  if !(leadingDigits a).isEmpty && !(leadingDigits b).isEmpty then
    compare (parseIntName a) (parseIntName b)
  else fallback a b

/-- The comparator with the modelled locale fallback. -/
def naturalCompare : String → String → Ordering :=
  naturalCompareWith localeCompareNumeric

/--
Stable insertion of `x` into a sorted list: `x` is placed before the
first element it compares strictly less than or equal to, i.e. after
every earlier element it does not precede.
-/
def insertCmp {α : Type} (cmp : α → α → Ordering) (x : α) :
    List α → List α
  | [] => [x]
  | y :: ys =>
    if cmp x y ≠ Ordering.gt then x :: y :: ys
    else y :: insertCmp cmp x ys

/--
Stable comparator sort, the embedding of `Array.prototype.sort`
(stable per the ECMAScript specification).
-/
def sortCmp {α : Type} (cmp : α → α → Ordering) : List α → List α
  | [] => []
  | x :: xs => insertCmp cmp x (sortCmp cmp xs)

/--
The function `naturalSort(files)` from `FolderUploader.svelte`: sorts the selected
files (here: name/content pairs, content `none` modelling a read that
throws) by name under `naturalCompare`.
-/
def naturalSort (files : List (String × Option Bytes)) :
    List (String × Option Bytes) :=
  sortCmp (fun f g => naturalCompare f.1 g.1) files

/-! ### Timing metadata and the ingestion pipeline -/

/-- One entry of `timing.json` (`TimingEntry` in `pdu-store.ts`). -/
structure TimingEntry where
  index : Nat
  type : String
  source : String
  timeOffset : Int
  size : Nat
deriving DecidableEq

/--
The per-candidate loop of `handleFolderSelect` (after `clearFrames()`):
each candidate's bytes are stored under `parseInt(file.name, 10)`.
A candidate content of `none` models `file.arrayBuffer()` or
`storeFrame` throwing: the `try` block aborts there, the `catch` sets
the upload status to `error` (embedded as the `Bool` being `false`),
and nothing already committed is undone.
-/
def ingestFrames : Store → List (String × Option Bytes) → Store × Bool
  | s, [] => (s, true)
  | s, (_, none) :: _ => (s, false)
  | s, (name, some b) :: rest =>
    ingestFrames (storeFrame s (parseIntName name) b) rest

/-- The candidate loop when every read and store succeeds. -/
def ingestAll (s : Store) (files : List (String × Bytes)) : Store :=
  files.foldl (fun st f => storeFrame st (parseIntName f.1) f.2) s

/--
The bytes of the last candidate in iteration order whose name-derived
key is `k` (the store is written front to back, so the last write wins).
-/
def lastOcc : List (String × Bytes) → Nat → Option Bytes
  | [], _ => none
  | (nm, b) :: rest, k =>
    match lastOcc rest k with
    | some b' => some b'
    | none => if parseIntName nm = k then some b else none

/-- The outcome of one folder ingestion. -/
structure IngestOut where
  timing : List TimingEntry
  store : Store
  ok : Bool
deriving DecidableEq

/--
The handler `handleFolderSelect` from `FolderUploader.svelte` for a non-empty
selection: sort the files naturally; if a file named `timing.json`
exists, read and parse it — on success the parsed entries replace the
bound `timing`, while a throwing read or a `JSON.parse` failure is
caught and merely logged, leaving the previously bound `timing` in
place; if no such file exists, `timing` is set to `[]`.  Then filter
the pure-digit frame candidates, clear the store and run the storing
loop.  `parse` stands for `JSON.parse` on the descriptor's text
(a platform builtin, abstracted by its outcome).
-/
def handleFolderSelect (parse : Bytes → Option (List TimingEntry))
    (priorTiming : List TimingEntry)
    (files : List (String × Option Bytes)) : IngestOut :=
  let sorted := naturalSort files
  let timing :=
    match sorted.find? (fun f => f.1 == "timing.json") with
    | some (_, some raw) =>
      match parse raw with
      | some entries => entries
      | none => priorTiming
    | some (_, none) => priorTiming
    | none => []
  let pduFiles := sorted.filter (fun f => isPureDigits f.1)
  let result := ingestFrames clearFrames pduFiles
  { timing := timing, store := result.1, ok := result.2 }

/-! ### The playback loop (`playFrames` in `ReplayPlayer.svelte` and
`routes/player/+page.svelte`) -/

/--
The mutable component state touched by one iteration of the
`while (isPlaying)` loop, plus two histories used by the theorems:
`iters` counts completed full iterations and `sleeps` logs every
`setTimeout` suspension actually awaited, in order.
-/
structure LoopState where
  isPlaying : Bool
  currentFrame : Nat
  lastTimeOffset : Int
  currentTimeMs : Int
  iters : Nat
  sleeps : List Int
deriving DecidableEq

/--
One full iteration of the loop body, driven by the engine's step result
`(hasMore, currentFrame after the step)`: read `replay.currentFrame`,
handle one-shot updates and render (no observable state here), then
either exit on `!hasMore`, or compute the pacing delay from
`timing[currentFrame]` — suspending only when the delay is positive —
or fall back to a fixed 16 ms suspension when no timing entry exists.
The body never reads `isPlaying`; the flag is observed only by the
loop head.
-/
def playIter (timing : List TimingEntry) (stepResult : Bool × Nat)
    (s : LoopState) : LoopState :=
  let cf := stepResult.2
  let s1 := { s with currentFrame := cf, iters := s.iters + 1 }
  if !stepResult.1 then { s1 with isPlaying := false }
  else
    match timing[cf]? with
    | some t =>
      let delay := t.timeOffset - s1.lastTimeOffset
      let s2 := { s1 with currentTimeMs := t.timeOffset,
                          lastTimeOffset := t.timeOffset }
      if delay > 0 then { s2 with sleeps := s2.sleeps ++ [delay] } else s2
    | none => { s1 with sleeps := s1.sleeps ++ [16] }

/--
The `while (isPlaying)` loop, driven by a finite engine trace (the
successive results of `await replay.step()` and the engine's reported
`currentFrame`).  `stopAt = some n` models `stopReplay()` being invoked
while iteration `n` (zero-based) is suspended at one of its await
points: the flag is cleared mid-iteration and observed at the top of
the next iteration, never inside the body.
-/
def playLoop (timing : List TimingEntry) (stopAt : Option Nat) :
    List (Bool × Nat) → LoopState → LoopState
  | [], s => s
  | step :: rest, s =>
    if s.isPlaying then
      let s1 := playIter timing step s
      let s2 := if stopAt = some s.iters then { s1 with isPlaying := false }
                else s1
      playLoop timing stopAt rest s2
    else s

/--
The initial loop state set up by `playFrames` before entering the loop:
`lastTimeOffset` starts at `timing[0]?.timeOffset ?? 0`.
-/
def initLoopState (timing : List TimingEntry) : LoopState :=
  { isPlaying := true
    currentFrame := 0
    lastTimeOffset := ((timing.head?).map TimingEntry.timeOffset).getD 0
    currentTimeMs := ((timing.head?).map TimingEntry.timeOffset).getD 0
    iters := 0
    sleeps := [] }

/-- The function `playFrames()` as a whole: initialise, then run the loop. -/
def playFrames (timing : List TimingEntry) (stopAt : Option Nat)
    (steps : List (Bool × Nat)) : LoopState :=
  playLoop timing stopAt steps (initLoopState timing)

/-! ### Starting playback (`startReplay`, `onMount`) -/

/-- What `startReplay()` in `ReplayPlayer.svelte` does before returning. -/
inductive StartOutcome where
  /-- Sets `error = 'WASM not initialized'` and returns; no engine call. -/
  | errorWasmNotInitialized : StartOutcome
  /-- Reaches `Replay.create(DB_NAME, DEFAULT_WIDTH, DEFAULT_HEIGHT)`:
  engine session construction is attempted. -/
  | createAttempted (dbName : String) (width height : Nat) : StartOutcome
deriving DecidableEq

/--
The function `startReplay()` from `ReplayPlayer.svelte` (lines 75–93): guards only on
the WASM capability being initialised and the `Replay` binding being
present, then attempts `Replay.create`.  The stored frame count is
passed as an argument to show it is never consulted: no code path of
this function reads the store before attempting engine creation.
-/
def startReplay (isInitialized : Bool) (wasmBound : Bool)
    (_frameCount : Nat) : StartOutcome :=
  if !isInitialized || !wasmBound then StartOutcome.errorWasmNotInitialized
  else StartOutcome.createAttempted "rdp-pdus" 1920 1080

/-- What the player route's `onMount` does after counting frames. -/
inductive MountOutcome where
  /-- `goto('/')`: navigate back to the upload page, before any WASM
  initialisation or `Replay.create` call. -/
  | redirectHome : MountOutcome
  /-- Initialise WASM and auto-create the replay session handle. -/
  | createReplay (dbName : String) (width height : Nat) : MountOutcome
deriving DecidableEq

/--
The handler `onMount` from `routes/player/+page.svelte` (lines 61–98), reduced to
its control flow on the stored frame count: zero frames redirects home
before the engine is touched, otherwise the session handle is created.
-/
def pageOnMount (frameCount : Nat) : MountOutcome :=
  if frameCount = 0 then MountOutcome.redirectHome
  else MountOutcome.createReplay "rdp-pdus" 1920 1080

/-! ### Reset (`resetReplay`) -/

/--
Modelled from the spec: the ReplayEngine capability's state, reduced to
its playhead.  The engine itself is WASM external to this repository;
per the spec, `reset()` "instructs the engine to rewind".
-/
structure EngineState where
  playhead : Nat
deriving DecidableEq

/-- Modelled from the spec: `Replay.reset()` rewinds to the beginning. -/
def engineReset (_e : EngineState) : EngineState :=
  { playhead := 0 }

/-- The component state touched by `resetReplay` in `ReplayPlayer.svelte`. -/
structure PlayerState where
  replay : Option EngineState
  currentFrame : Nat
  currentTimeMs : Int
deriving DecidableEq

/--
The function `resetReplay()` from `ReplayPlayer.svelte` (lines 238–245): when a live
session handle exists, call `replay.reset()` and zero `currentFrame`
and `currentTimeMs`; the handle itself is kept.  Without a handle it is
a no-op.
-/
def resetReplay (s : PlayerState) : PlayerState :=
  match s.replay with
  | none => s
  | some e =>
    { replay := some (engineReset e), currentFrame := 0, currentTimeMs := 0 }

/--
C7: storing frame `b` at index `i` and then retrieving index `i`
returns exactly `b`, for every prior store contents, and contents at
other indices are untouched (put/get round-trip).
-/
theorem C7_put_get_roundtrip (s : Store) (i : Nat) (b : Bytes) :
    getFrame (storeFrame s i b) i = some b ∧
      ∀ j : Nat, j ≠ i → getFrame (storeFrame s i b) j = getFrame s j := by
  refine ⟨getFrame_putSorted_self s i b, ?_⟩
  intro j hj
  exact getFrame_putSorted_ne s i j b (Ne.symm hj)

/-- C7 witness: a concrete round-trip over a non-empty prior store. -/
theorem C7_put_get_roundtrip_witness :
    getFrame (storeFrame [(0, [9])] 3 [1, 2]) 3 = some [1, 2]
    ∧ getFrame (storeFrame [(0, [9])] 3 [1, 2]) 0 = getFrame [(0, [9])] 0 := by
  have h := C7_put_get_roundtrip [(0, [9])] 3 [1, 2]
  exact ⟨h.1, h.2 0 (by decide)⟩

/-! ### C1: pacing delays -/

/-- Timing entries with offsets `[0, 100, 250]` for frames `[0, 1, 2]`. -/
def timingExample : List TimingEntry :=
  [{ index := 0, type := "fastpath", source := "server", timeOffset := 0,
     size := 10 },
   { index := 1, type := "fastpath", source := "server", timeOffset := 100,
     size := 10 },
   { index := 2, type := "fastpath", source := "server", timeOffset := 250,
     size := 10 }]

/--
C1: after each decode step the loop computes the pacing delay as
`timing[currentFrame].timeOffset - lastTimeOffset` with `lastTimeOffset`
initialised to `timing[0]?.timeOffset ?? 0`; for offsets `[0, 100, 250]`
on frames `[0, 1, 2]` the performed suspensions are `100` then `150`;
a missing timing entry for the reported frame yields the fixed 16 ms
fallback suspension; and a computed delay `≤ 0` causes no suspension.
-/
theorem C1_pacing_delays :
    (playFrames timingExample none
        [(true, 0), (true, 1), (true, 2), (false, 3)]).sleeps = [100, 150]
    ∧ (∀ timing : List TimingEntry, ∀ stopAt : Option Nat,
        (playFrames timing stopAt []).lastTimeOffset
          = ((timing.head?).map TimingEntry.timeOffset).getD 0)
    ∧ (∀ timing : List TimingEntry, ∀ s : LoopState, ∀ cf : Nat,
        timing[cf]? = none →
        (playIter timing (true, cf) s).sleeps = s.sleeps ++ [16])
    ∧ (∀ timing : List TimingEntry, ∀ s : LoopState, ∀ cf : Nat,
        ∀ t : TimingEntry, timing[cf]? = some t →
        t.timeOffset - s.lastTimeOffset ≤ 0 →
        (playIter timing (true, cf) s).sleeps = s.sleeps)
    ∧ (∀ timing : List TimingEntry, ∀ s : LoopState, ∀ cf : Nat,
        ∀ t : TimingEntry, timing[cf]? = some t →
        0 < t.timeOffset - s.lastTimeOffset →
        (playIter timing (true, cf) s).sleeps
            = s.sleeps ++ [t.timeOffset - s.lastTimeOffset]
          ∧ (playIter timing (true, cf) s).lastTimeOffset = t.timeOffset) := by
  refine ⟨by decide, fun timing stopAt => rfl, ?_, ?_, ?_⟩
  · intro timing s cf h
    simp [playIter, h]
  · intro timing s cf t h hle
    have : ¬ (t.timeOffset - s.lastTimeOffset > 0) := by omega
    simp [playIter, h, this]
  · intro timing s cf t h hpos
    constructor
    · simp [playIter, h, hpos]
    · simp [playIter, h, hpos]

/-- The first entry of `timingExample`. -/
def entryZero : TimingEntry :=
  { index := 0, type := "fastpath", source := "server", timeOffset := 0,
    size := 10 }

/--
C1 witness: concrete instances for the fallback and nonpositive-delay
clauses.
-/
theorem C1_pacing_delays_witness :
    ((timingExample[7]? : Option TimingEntry) = none
      ∧ (playIter timingExample (true, 7)
          (initLoopState timingExample)).sleeps
        = (initLoopState timingExample).sleeps ++ [16])
    ∧ ((timingExample[0]? : Option TimingEntry) = some entryZero
      ∧ (playIter timingExample (true, 0)
          (initLoopState timingExample)).sleeps
        = (initLoopState timingExample).sleeps) := by
  constructor
  · exact ⟨by decide,
      C1_pacing_delays.2.2.1 timingExample (initLoopState timingExample) 7
        (by decide)⟩
  · exact ⟨by decide,
      C1_pacing_delays.2.2.2.1 timingExample (initLoopState timingExample) 0
        entryZero (by decide) (by decide)⟩

/-! ### C8: reset idempotence -/

/--
C8: with a live session handle, `resetReplay` zeroes `currentFrame`,
rewinds the engine without destroying the handle, and is idempotent:
a second immediate reset leaves `currentFrame` at 0 and the handle
intact.
-/
theorem C8_reset_idempotent (s : PlayerState) (e : EngineState)
    (h : s.replay = some e) :
    (resetReplay s).currentFrame = 0
    ∧ (resetReplay s).replay = some (engineReset e)
    ∧ resetReplay (resetReplay s) = resetReplay s
    ∧ (resetReplay (resetReplay s)).currentFrame = 0
    ∧ (resetReplay (resetReplay s)).replay.isSome = true := by
  simp [resetReplay, h, engineReset]

/-- A concrete engine state used by the C8 witness. -/
def sampleEngine : EngineState := { playhead := 5 }

/-- A concrete live-handle player state used by the C8 witness. -/
def samplePlayerState : PlayerState :=
  { replay := some sampleEngine, currentFrame := 7, currentTimeMs := 9 }

/-- C8 witness: a concrete live-handle state. -/
theorem C8_reset_idempotent_witness :
    (resetReplay samplePlayerState).currentFrame = 0
    ∧ (resetReplay samplePlayerState).replay = some (engineReset sampleEngine)
    ∧ resetReplay (resetReplay samplePlayerState)
        = resetReplay samplePlayerState
    ∧ (resetReplay (resetReplay samplePlayerState)).currentFrame = 0
    ∧ (resetReplay (resetReplay samplePlayerState)).replay.isSome = true :=
  C8_reset_idempotent samplePlayerState sampleEngine rfl

/-! ### C3: starting playback with zero frames -/

/--
C3 counterexample: with the engine capability initialised and the frame
store containing zero frames, `startReplay` in `ReplayPlayer.svelte`
goes straight to `Replay.create` — engine session construction is
attempted and no ConfigError (indeed no error at all) is surfaced
before it.
-/
theorem C3_zero_frames_cex :
    startReplay true true 0
        = StartOutcome.createAttempted "rdp-pdus" 1920 1080
    ∧ startReplay true true 0 ≠ StartOutcome.errorWasmNotInitialized := by
  decide

/--
C3 (amended): the component's `startReplay` requires only the engine
capability to be initialised (surfacing `'WASM not initialized'`
otherwise) and attempts session construction regardless of the stored
frame count; the zero-frame guard lives in the player route's mount,
which checks the count before any session handle is constructed and
navigates back to the upload page rather than surfacing a ConfigError.
-/
theorem C3_start_guards (c : Nat) :
    (∀ w : Bool, startReplay false w c
        = StartOutcome.errorWasmNotInitialized)
    ∧ (∀ i : Bool, startReplay i false c
        = StartOutcome.errorWasmNotInitialized)
    ∧ startReplay true true c
        = StartOutcome.createAttempted "rdp-pdus" 1920 1080
    ∧ pageOnMount 0 = MountOutcome.redirectHome
    ∧ (c ≠ 0 → pageOnMount c = MountOutcome.createReplay "rdp-pdus" 1920 1080)
    := by
  refine ⟨fun w => rfl, fun i => ?_, rfl, rfl, fun hc => ?_⟩
  · cases i <;> rfl
  · simp [pageOnMount, hc]

/-- C3 witness: three stored frames mount the player and create a handle. -/
theorem C3_start_guards_witness :
    pageOnMount 3 = MountOutcome.createReplay "rdp-pdus" 1920 1080 :=
  (C3_start_guards 3).2.2.2.2 (by decide)

/-! ### C2: timing descriptor parse failure -/

/-- A concrete timing entry standing for a previous session's metadata. -/
def sampleEntry : TimingEntry :=
  { index := 0, type := "fastpath", source := "server", timeOffset := 5,
    size := 1 }

/--
C2 counterexample: when the selection contains `timing.json` and parsing
its text fails, `handleFolderSelect` does not set the timing index to
the empty sequence — the `catch` only logs, so the previously bound
(previous session's) timing data is retained.
-/
theorem C2_parse_failure_cex :
    (handleFolderSelect (fun _ => none) [sampleEntry]
        [("timing.json", some [123])]).timing = [sampleEntry]
    ∧ [sampleEntry] ≠ ([] : List TimingEntry) := by
  exact ⟨rfl, by decide⟩

/--
C2 (amended): if parsing the timing descriptor fails (or reading its
text throws), ingestion proceeds with the previously bound timing value
retained unchanged — possibly a previous session's data; the timing
index is set to the empty sequence only when no descriptor file is
present in the selection; a successful parse replaces it; and the frame
ingestion outcome (store contents and status) is unaffected by the
parse result and the prior timing.
-/
theorem C2_parse_failure_retains
    (parse : Bytes → Option (List TimingEntry))
    (prior : List TimingEntry) (files : List (String × Option Bytes)) :
    (∀ nm : String, ∀ raw : Bytes,
      (naturalSort files).find? (fun f => f.1 == "timing.json")
          = some (nm, some raw) → parse raw = none →
      (handleFolderSelect parse prior files).timing = prior)
    ∧ ((naturalSort files).find? (fun f => f.1 == "timing.json") = none →
      (handleFolderSelect parse prior files).timing = [])
    ∧ (∀ nm : String, ∀ raw : Bytes, ∀ es : List TimingEntry,
      (naturalSort files).find? (fun f => f.1 == "timing.json")
          = some (nm, some raw) → parse raw = some es →
      (handleFolderSelect parse prior files).timing = es)
    ∧ (∀ parse' : Bytes → Option (List TimingEntry),
       ∀ prior' : List TimingEntry,
      (handleFolderSelect parse prior files).store
          = (handleFolderSelect parse' prior' files).store
      ∧ (handleFolderSelect parse prior files).ok
          = (handleFolderSelect parse' prior' files).ok) := by
  refine ⟨?_, ?_, ?_, fun parse' prior' => ⟨rfl, rfl⟩⟩
  · intro nm raw hfind hparse
    simp [handleFolderSelect, hfind, hparse]
  · intro hfind
    simp [handleFolderSelect, hfind]
  · intro nm raw es hfind hparse
    simp [handleFolderSelect, hfind, hparse]

/-- C2 witness: the amended behaviour at a concrete failing parse. -/
theorem C2_parse_failure_retains_witness :
    (handleFolderSelect (fun _ => none) [sampleEntry]
        [("timing.json", some [123])]).timing = [sampleEntry] :=
  (C2_parse_failure_retains (fun _ => none) [sampleEntry]
      [("timing.json", some [123])]).1 "timing.json" [123] (by decide) rfl

/-! ### C4: natural sort of frame candidates -/

/--
C4: the frame-candidate comparator compares the leading digit runs of
two names numerically when both have one, and otherwise falls back to
the locale-aware numeric-aware comparison; sorting
`["10", "2", "1", "timing.json"]` and filtering the pure-digit frame
candidates yields `["1", "2", "10"]`.
-/
theorem C4_natural_sort (fb : String → String → Ordering) (a b : String) :
    ((leadingDigits a).isEmpty = false → (leadingDigits b).isEmpty = false →
      naturalCompareWith fb a b
        = compare (digitsVal (leadingDigits a)) (digitsVal (leadingDigits b)))
    ∧ ((leadingDigits a).isEmpty = true ∨ (leadingDigits b).isEmpty = true →
      naturalCompareWith fb a b = fb a b)
    ∧ (sortCmp naturalCompare ["10", "2", "1", "timing.json"]).filter
        (fun nm => isPureDigits nm) = ["1", "2", "10"] := by
  refine ⟨?_, ?_, by decide⟩
  · intro ha hb
    simp [naturalCompareWith, ha, hb, parseIntName]
  · intro h
    rcases h with h | h <;> simp [naturalCompareWith, h]

/-- C4 witness: both names digit-led, and one name lacking digits. -/
theorem C4_natural_sort_witness :
    (naturalCompareWith localeCompareNumeric "10" "2"
      = compare (digitsVal (leadingDigits "10")) (digitsVal (leadingDigits "2")))
    ∧ naturalCompareWith localeCompareNumeric "2" "timing.json"
      = localeCompareNumeric "2" "timing.json" :=
  ⟨(C4_natural_sort localeCompareNumeric "10" "2").1 (by decide) (by decide),
   (C4_natural_sort localeCompareNumeric "2" "timing.json").2.1
      (by decide)⟩

/-! ### C9: cooperative stop latency -/

theorem playIter_iters (timing : List TimingEntry) (p : Bool × Nat)
    (s : LoopState) : (playIter timing p s).iters = s.iters + 1 := by
  obtain ⟨hm, cf⟩ := p
  cases hm
  · simp [playIter]
  · rcases h : timing[cf]? with _ | t
    · simp [playIter, h]
    · by_cases hd : t.timeOffset - s.lastTimeOffset > 0 <;>
        simp [playIter, h, hd]

theorem playIter_isPlaying (timing : List TimingEntry) (p : Bool × Nat)
    (s : LoopState) (hp : p.1 = true) :
    (playIter timing p s).isPlaying = s.isPlaying := by
  obtain ⟨hm, cf⟩ := p
  subst hp
  rcases h : timing[cf]? with _ | t
  · simp [playIter, h]
  · by_cases hd : t.timeOffset - s.lastTimeOffset > 0 <;>
      simp [playIter, h, hd]

theorem playLoop_cons (timing : List TimingEntry) (stopAt : Option Nat)
    (p : Bool × Nat) (l : List (Bool × Nat)) (s : LoopState) :
    playLoop timing stopAt (p :: l) s
      = if s.isPlaying then
          playLoop timing stopAt l
            (if stopAt = some s.iters then
              { playIter timing p s with isPlaying := false }
            else playIter timing p s)
        else s := rfl

theorem playLoop_not_playing (timing : List TimingEntry)
    (stopAt : Option Nat) (l : List (Bool × Nat)) (s : LoopState)
    (h : s.isPlaying = false) : playLoop timing stopAt l s = s := by
  cases l <;> simp [playLoop, h]

theorem foldl_playIter_iters (timing : List TimingEntry)
    (l : List (Bool × Nat)) (s : LoopState) :
    (l.foldl (fun st p => playIter timing p st) s).iters
      = s.iters + l.length := by
  induction l generalizing s with
  | nil => simp
  | cons p l ih =>
    simp only [List.foldl_cons, List.length_cons, ih, playIter_iters]
    omega

theorem playLoop_stop (timing : List TimingEntry)
    (pre rest : List (Bool × Nat)) (s : LoopState) (k : Nat)
    (hplay : s.isPlaying = true)
    (hall : ∀ p ∈ pre, p.1 = true)
    (hlen : pre.length = k + 1) :
    playLoop timing (some (s.iters + k)) (pre ++ rest) s
      = { pre.foldl (fun st p => playIter timing p st) s with
          isPlaying := false } := by
  induction pre generalizing s k with
  | nil => simp at hlen
  | cons p pre' ih =>
    have hp : p.1 = true := hall p (List.mem_cons_self p pre')
    rw [List.cons_append, playLoop_cons, if_pos hplay]
    cases pre' with
    | nil =>
      have hk0 : k = 0 := by simpa using hlen
      subst hk0
      rw [Nat.add_zero, if_pos rfl, List.foldl_cons, List.foldl_nil]
      exact playLoop_not_playing timing _ rest _ rfl
    | cons q pre'' =>
      have hk : k = pre''.length + 1 := by
        simp only [List.length_cons] at hlen
        omega
      have hne : ¬ ((some (s.iters + k) : Option Nat) = some s.iters) := by
        simp only [Option.some.injEq]
        omega
      rw [if_neg hne]
      have harith : s.iters + k
          = (playIter timing p s).iters + pre''.length := by
        rw [playIter_iters]
        omega
      rw [harith, List.foldl_cons]
      have hplay' : (playIter timing p s).isPlaying = true := by
        rw [playIter_isPlaying timing p s hp, hplay]
      have hall' : ∀ r ∈ q :: pre'', r.1 = true :=
        fun r hr => hall r (List.mem_cons_of_mem p hr)
      exact ih (playIter timing p s) pre''.length hplay' hall' (by simp)

/--
C9: if stop is requested during iteration `n` (the playing flag is
cleared at an await point inside that iteration), the loop completes
iteration `n` in full — the flag is observed only at the top of the
next iteration, never mid-step — consumes none of the remaining engine
trace, and exits: exactly `n + 1` full iterations run in total.
-/
theorem C9_stop_latency (timing : List TimingEntry)
    (pre rest : List (Bool × Nat)) (n : Nat)
    (hall : ∀ p ∈ pre, p.1 = true) (hlen : pre.length = n + 1) :
    playFrames timing (some n) (pre ++ rest)
      = { pre.foldl (fun st p => playIter timing p st) (initLoopState timing)
          with isPlaying := false }
    ∧ (playFrames timing (some n) (pre ++ rest)).iters = n + 1
    ∧ (playFrames timing (some n) (pre ++ rest)).isPlaying = false := by
  have hmain := playLoop_stop timing pre rest (initLoopState timing) n rfl
    hall hlen
  have h0 : (initLoopState timing).iters = 0 := rfl
  rw [h0, Nat.zero_add] at hmain
  have hfold : playFrames timing (some n) (pre ++ rest)
      = { pre.foldl (fun st p => playIter timing p st) (initLoopState timing)
          with isPlaying := false } := hmain
  refine ⟨hfold, ?_, ?_⟩
  · rw [hfold]
    show (pre.foldl (fun st p => playIter timing p st)
        (initLoopState timing)).iters = n + 1
    rw [foldl_playIter_iters, h0, hlen, Nat.zero_add]
  · rw [hfold]

/--
C9 witness: stop requested during iteration 1 of a three-step trace:
exactly 2 iterations run.
-/
theorem C9_stop_latency_witness :
    (playFrames [] (some 1) [(true, 5), (true, 7), (true, 9)]).iters = 2 := by
  have h := C9_stop_latency [] [(true, 5), (true, 7)] [(true, 9)] 1
    (by decide) (by decide)
  exact h.2.1

/-! ### Store and ingestion lemmas (for C5, C6, C10) -/

theorem getFrame_eq_none_iff (s : Store) (k : Nat) :
    getFrame s k = none ↔ k ∉ s.map Prod.fst := by
  induction s with
  | nil => simp [getFrame]
  | cons hd tl ih =>
    obtain ⟨k', v⟩ := hd
    by_cases h : k' = k
    · subst h
      simp [getFrame]
    · simp only [getFrame, if_neg h, List.map_cons, List.mem_cons, ih]
      constructor
      · intro hk hc
        rcases hc with hc | hc
        · exact h hc.symm
        · exact hk hc
      · intro hk hc
        exact hk (Or.inr hc)

theorem mem_of_getFrame_some (s : Store) (k : Nat) (v : Bytes)
    (h : getFrame s k = some v) : k ∈ s.map Prod.fst := by
  by_contra hc
  rw [(getFrame_eq_none_iff s k).mpr hc] at h
  exact Option.noConfusion h

theorem getFrame_ingestAll (files : List (String × Bytes)) (s : Store)
    (k : Nat) :
    getFrame (ingestAll s files) k
      = match lastOcc files k with
        | some b => some b
        | none => getFrame s k := by
  induction files generalizing s with
  | nil => rfl
  | cons f rest ih =>
    obtain ⟨nm, b⟩ := f
    show getFrame (ingestAll (storeFrame s (parseIntName nm) b) rest) k = _
    rw [ih]
    rcases h : lastOcc rest k with _ | b'
    · simp only [lastOcc, h]
      by_cases hk : parseIntName nm = k
      · subst hk
        simp [storeFrame, getFrame_putSorted_self]
      · simp [hk, storeFrame, getFrame_putSorted_ne _ _ _ _ hk]
    · simp only [lastOcc, h]

theorem lastOcc_eq_none_iff (files : List (String × Bytes)) (k : Nat) :
    lastOcc files k = none
      ↔ k ∉ files.map (fun f => parseIntName f.1) := by
  induction files with
  | nil => simp [lastOcc]
  | cons f rest ih =>
    obtain ⟨nm, b⟩ := f
    simp only [lastOcc, List.map_cons, List.mem_cons]
    rcases h : lastOcc rest k with _ | b'
    · rw [h] at ih
      by_cases hk : parseIntName nm = k
      · simp [hk]
      · simp only [if_neg hk]
        constructor
        · intro _ hc
          rcases hc with hc | hc
          · exact hk hc.symm
          · exact (ih.mp rfl) hc
        · intro _
          trivial
    · rw [h] at ih
      simp only []
      constructor
      · intro hc
        exact Option.noConfusion hc
      · intro hc
        exfalso
        apply hc
        right
        by_contra hmem
        exact Option.noConfusion (ih.mpr hmem)

theorem lastOcc_mem (files : List (String × Bytes)) (k : Nat) (b : Bytes) :
    lastOcc files k = some b
      → ∃ nm, (nm, b) ∈ files ∧ parseIntName nm = k := by
  induction files with
  | nil =>
    intro h
    exact Option.noConfusion h
  | cons f rest ih =>
    obtain ⟨nm', b'⟩ := f
    intro h
    simp only [lastOcc] at h
    rcases h' : lastOcc rest k with _ | b''
    · rw [h'] at h
      by_cases hk : parseIntName nm' = k
      · rw [if_pos hk] at h
        obtain rfl : b' = b := Option.some.inj h
        exact ⟨nm', List.mem_cons_self _ _, hk⟩
      · rw [if_neg hk] at h
        exact Option.noConfusion h
    · rw [h'] at h
      obtain rfl : b'' = b := Option.some.inj h
      obtain ⟨nm, hmem, hk⟩ := ih h'
      exact ⟨nm, List.mem_cons_of_mem _ hmem, hk⟩

theorem lastOcc_of_mem_nodup (files : List (String × Bytes)) (k : Nat)
    (nm : String) (b : Bytes)
    (hnd : (files.map fun f => parseIntName f.1).Nodup) :
    (nm, b) ∈ files → parseIntName nm = k → lastOcc files k = some b := by
  induction files with
  | nil =>
    intro hmem _
    exact absurd hmem (List.not_mem_nil _)
  | cons f rest ih =>
    obtain ⟨nm', b'⟩ := f
    intro hmem hk
    simp only [List.map_cons, List.nodup_cons] at hnd
    obtain ⟨hnotin, hnd'⟩ := hnd
    rcases List.mem_cons.mp hmem with heq | hmem'
    · obtain ⟨rfl, rfl⟩ : nm = nm' ∧ b = b' := by
        have h1 := congrArg Prod.fst heq
        have h2 := congrArg Prod.snd heq
        exact ⟨h1, h2⟩
      have hnone : lastOcc rest k = none := by
        rw [lastOcc_eq_none_iff, ← hk]
        exact hnotin
      simp only [lastOcc, hnone, hk, if_pos]
    · have hr := ih hnd' hmem' hk
      simp only [lastOcc, hr]

theorem lastOcc_perm (files files' : List (String × Bytes))
    (hperm : files.Perm files')
    (hnd : (files.map fun f => parseIntName f.1).Nodup) (k : Nat) :
    lastOcc files k = lastOcc files' k := by
  have hnd' : (files'.map fun f => parseIntName f.1).Nodup :=
    ((hperm.map _).nodup_iff).mp hnd
  rcases h : lastOcc files k with _ | b
  · have hnot : k ∉ files.map (fun f => parseIntName f.1) :=
      (lastOcc_eq_none_iff _ _).mp h
    have hnot' : k ∉ files'.map (fun f => parseIntName f.1) := fun hc =>
      hnot (((hperm.map _).mem_iff).mpr hc)
    exact ((lastOcc_eq_none_iff _ _).mpr hnot').symm
  · obtain ⟨nm, hmem, hk⟩ := lastOcc_mem files k b h
    exact (lastOcc_of_mem_nodup files' k nm b hnd'
      (hperm.subset hmem) hk).symm

theorem mem_putSorted (s : Store) (i : Nat) (b : Bytes) (p : Nat × Bytes) :
    p ∈ putSorted i b s → p = (i, b) ∨ p ∈ s := by
  induction s with
  | nil =>
    intro h
    simp only [putSorted] at h
    exact Or.inl (List.mem_singleton.mp h)
  | cons hd tl ih =>
    obtain ⟨k, v⟩ := hd
    intro h
    by_cases h1 : i < k
    · simp only [putSorted, if_pos h1, List.mem_cons] at h
      rcases h with h | h | h
      · exact Or.inl h
      · exact Or.inr (List.mem_cons.mpr (Or.inl h))
      · exact Or.inr (List.mem_cons.mpr (Or.inr h))
    · by_cases h2 : i = k
      · simp only [putSorted, if_neg h1, if_pos h2, List.mem_cons] at h
        rcases h with h | h
        · exact Or.inl h
        · exact Or.inr (List.mem_cons.mpr (Or.inr h))
      · simp only [putSorted, if_neg h1, if_neg h2, List.mem_cons] at h
        rcases h with h | h
        · exact Or.inr (List.mem_cons.mpr (Or.inl h))
        · rcases ih h with h' | h'
          · exact Or.inl h'
          · exact Or.inr (List.mem_cons.mpr (Or.inr h'))

theorem storeSorted_putSorted (s : Store) (i : Nat) (b : Bytes) :
    StoreSorted s → StoreSorted (putSorted i b s) := by
  induction s with
  | nil =>
    intro _
    simp [putSorted, StoreSorted]
  | cons hd tl ih =>
    obtain ⟨k, v⟩ := hd
    intro hs
    have hs' := hs
    rw [StoreSorted, List.pairwise_cons] at hs'
    obtain ⟨hlt, htl⟩ := hs'
    by_cases h1 : i < k
    · simp only [putSorted, if_pos h1]
      rw [StoreSorted, List.pairwise_cons]
      refine ⟨?_, hs⟩
      intro q hq
      rcases List.mem_cons.mp hq with hq | hq
      · rw [hq]
        exact h1
      · exact Nat.lt_trans h1 (hlt q hq)
    · by_cases h2 : i = k
      · subst h2
        have hput : putSorted i b ((i, v) :: tl) = (i, b) :: tl := by
          simp [putSorted, h1]
        rw [hput, StoreSorted, List.pairwise_cons]
        exact ⟨hlt, htl⟩
      · simp only [putSorted, if_neg h1, if_neg h2]
        rw [StoreSorted, List.pairwise_cons]
        refine ⟨?_, ih htl⟩
        intro q hq
        rcases mem_putSorted tl i b q hq with hq' | hq'
        · rw [hq']
          omega
        · exact hlt q hq'

theorem storeSorted_clear : StoreSorted clearFrames :=
  List.Pairwise.nil

theorem storeSorted_ingestAll (files : List (String × Bytes)) (s : Store)
    (hs : StoreSorted s) : StoreSorted (ingestAll s files) := by
  induction files generalizing s with
  | nil => exact hs
  | cons f rest ih =>
    exact ih (storeFrame s (parseIntName f.1) f.2)
      (storeSorted_putSorted s (parseIntName f.1) f.2 hs)

theorem store_ext (s₁ : Store) :
    ∀ s₂ : Store, StoreSorted s₁ → StoreSorted s₂ →
      (∀ k, getFrame s₁ k = getFrame s₂ k) → s₁ = s₂ := by
  induction s₁ with
  | nil =>
    intro s₂ _ _ hk
    cases s₂ with
    | nil => rfl
    | cons hd tl =>
      exfalso
      obtain ⟨k₂, v₂⟩ := hd
      have := hk k₂
      simp [getFrame] at this
  | cons hd tl ih =>
    intro s₂ h₁ h₂ hk
    obtain ⟨k₁, v₁⟩ := hd
    cases s₂ with
    | nil =>
      exfalso
      have := hk k₁
      simp [getFrame] at this
    | cons hd' tl' =>
      obtain ⟨k₂, v₂⟩ := hd'
      have h₁' := h₁
      have h₂' := h₂
      rw [StoreSorted, List.pairwise_cons] at h₁' h₂'
      obtain ⟨hlt₁, htl₁⟩ := h₁'
      obtain ⟨hlt₂, htl₂⟩ := h₂'
      have hkey : k₁ = k₂ := by
        by_contra hne
        have ha : getFrame ((k₂, v₂) :: tl') k₁ = some v₁ := by
          rw [← hk k₁]
          simp [getFrame]
        have hb : getFrame ((k₁, v₁) :: tl) k₂ = some v₂ := by
          rw [hk k₂]
          simp [getFrame]
        rw [getFrame, if_neg (fun hc => hne hc.symm)] at ha
        rw [getFrame, if_neg hne] at hb
        have ha' := mem_of_getFrame_some tl' k₁ v₁ ha
        have hb' := mem_of_getFrame_some tl k₂ v₂ hb
        obtain ⟨q, hq, hq1⟩ := List.mem_map.mp ha'
        obtain ⟨r, hr, hr1⟩ := List.mem_map.mp hb'
        have l1 : k₂ < k₁ := hq1 ▸ hlt₂ q hq
        have l2 : k₁ < k₂ := hr1 ▸ hlt₁ r hr
        omega
      subst hkey
      have hval : v₁ = v₂ := by
        have := hk k₁
        simp [getFrame] at this
        exact this
      subst hval
      have htail : ∀ k, getFrame tl k = getFrame tl' k := by
        intro k
        by_cases hck : k = k₁
        · subst hck
          have e₁ : getFrame tl k = none := by
            rw [getFrame_eq_none_iff]
            intro hc
            obtain ⟨q, hq, hq1⟩ := List.mem_map.mp hc
            have := hlt₁ q hq
            omega
          have e₂ : getFrame tl' k = none := by
            rw [getFrame_eq_none_iff]
            intro hc
            obtain ⟨q, hq, hq1⟩ := List.mem_map.mp hc
            have := hlt₂ q hq
            omega
          rw [e₁, e₂]
        · have := hk k
          rw [getFrame, if_neg (fun hc => hck hc.symm)] at this
          rw [getFrame, if_neg (fun hc => hck hc.symm)] at this
          exact this
      rw [ih tl' htl₁ htl₂ htail]

theorem keys_nodup_of_sorted (s : Store) (h : StoreSorted s) :
    (s.map Prod.fst).Nodup := by
  rw [StoreSorted] at h
  exact List.pairwise_map.mpr (h.imp fun hlt => Nat.ne_of_lt hlt)

theorem toFinset_card_lt_of_not_nodup (l : List Nat) (h : ¬ l.Nodup) :
    l.toFinset.card < l.length := by
  rcases Nat.lt_or_ge l.toFinset.card l.length with hlt | hge
  · exact hlt
  · exfalso
    have hle := List.toFinset_card_le l
    have heq : l.toFinset.card = l.length := Nat.le_antisymm hle hge
    rw [List.card_toFinset] at heq
    have hsub : l.dedup.Sublist l := List.dedup_sublist l
    have hde := hsub.eq_of_length heq
    exact h (hde ▸ List.nodup_dedup l)

theorem getFrameCount_ingestAll (files : List (String × Bytes)) :
    getFrameCount (ingestAll clearFrames files)
      = ((files.map fun f => parseIntName f.1).toFinset).card := by
  have hs : StoreSorted (ingestAll clearFrames files) :=
    storeSorted_ingestAll files clearFrames storeSorted_clear
  have hnd : ((ingestAll clearFrames files).map Prod.fst).Nodup :=
    keys_nodup_of_sorted _ hs
  have hmem : ∀ k, k ∈ (ingestAll clearFrames files).map Prod.fst
      ↔ k ∈ files.map (fun f => parseIntName f.1) := by
    intro k
    constructor
    · intro hk
      by_contra hc
      have h1 : lastOcc files k = none := (lastOcc_eq_none_iff _ _).mpr hc
      have h2 : getFrame (ingestAll clearFrames files) k = none := by
        rw [getFrame_ingestAll, h1]
        rfl
      rw [getFrame_eq_none_iff] at h2
      exact h2 hk
    · intro hk
      rcases ho : lastOcc files k with _ | b
      · exact absurd hk ((lastOcc_eq_none_iff _ _).mp ho)
      · have hsome : getFrame (ingestAll clearFrames files) k = some b := by
          rw [getFrame_ingestAll, ho]
        exact mem_of_getFrame_some _ k b hsome
  have hfin : ((ingestAll clearFrames files).map Prod.fst).toFinset
      = (files.map fun f => parseIntName f.1).toFinset := by
    apply Finset.ext
    intro k
    simp only [List.mem_toFinset]
    exact hmem k
  calc getFrameCount (ingestAll clearFrames files)
      = ((ingestAll clearFrames files).map Prod.fst).length := by
        simp [getFrameCount]
    _ = ((ingestAll clearFrames files).map Prod.fst).toFinset.card :=
        (List.toFinset_card_of_nodup hnd).symm
    _ = (files.map fun f => parseIntName f.1).toFinset.card := by
        rw [hfin]

theorem ingestFrames_append (good : List (String × Bytes))
    (l : List (String × Option Bytes)) (s : Store) :
    ingestFrames s (good.map (fun g => (g.1, some g.2)) ++ l)
      = ingestFrames (ingestAll s good) l := by
  induction good generalizing s with
  | nil => rfl
  | cons g rest ih => exact ih (storeFrame s (parseIntName g.1) g.2)

/-! ### C5: keys derive from names, not positions -/

/--
C5 counterexample: two distinct candidate names (`"7"` and `"007"`)
denote the same integer key, so the final store contents do depend on
the iteration order — the claim's "independent of the iteration order"
clause fails as stated.
-/
theorem C5_iteration_order_cex :
    ([(("7" : String), ([1] : Bytes)), ("007", [2])]).Perm
        [("007", [2]), ("7", [1])]
    ∧ ingestAll clearFrames [("7", [1]), ("007", [2])]
        ≠ ingestAll clearFrames [("007", [2]), ("7", [1])] := by
  exact ⟨List.Perm.swap _ _ _, by decide⟩

/--
C5 (amended): the store is cleared first and each candidate's bytes are
stored under the integer parsed from its own name — every candidate is
retrievable at its name-derived key — and, provided the candidates'
name-derived keys are pairwise distinct, the final store contents are
independent of the iteration order of the candidates.
-/
theorem C5_name_derived_keys (files files' : List (String × Bytes))
    (hperm : files.Perm files')
    (hnd : (files.map fun f => parseIntName f.1).Nodup) :
    ingestAll clearFrames files = ingestAll clearFrames files'
    ∧ ∀ nm : String, ∀ b : Bytes, (nm, b) ∈ files →
      getFrame (ingestAll clearFrames files) (parseIntName nm) = some b := by
  constructor
  · refine store_ext _ _ (storeSorted_ingestAll files clearFrames
      storeSorted_clear) (storeSorted_ingestAll files' clearFrames
      storeSorted_clear) ?_
    intro k
    rw [getFrame_ingestAll, getFrame_ingestAll,
      lastOcc_perm files files' hperm hnd k]
  · intro nm b hmem
    rw [getFrame_ingestAll,
      lastOcc_of_mem_nodup files (parseIntName nm) nm b hnd hmem rfl]

/-- C5 witness: two distinct-key candidates in both iteration orders. -/
theorem C5_name_derived_keys_witness :
    ingestAll clearFrames [("0", [5]), ("1", [6])]
      = ingestAll clearFrames [("1", [6]), ("0", [5])]
    ∧ getFrame (ingestAll clearFrames [("0", [5]), ("1", [6])])
        (parseIntName "0") = some [5] := by
  have h := C5_name_derived_keys [("0", [5]), ("1", [6])]
    [("1", [6]), ("0", [5])] (List.Perm.swap _ _ _) (by decide)
  exact ⟨h.1, h.2 "0" [5] (by decide)⟩

/-! ### C6: ingestion failure mid-way -/

/--
C6: if reading (or storing) the Nth candidate throws while candidates
`0..N-1` succeeded, the whole ingestion is reported failed (status
`error`), the store is left exactly as after the successful prefix —
no rollback — and (when the prefix's name-derived keys are distinct)
every already-stored frame remains retrievable at its key.
-/
theorem C6_midway_failure (good : List (String × Bytes)) (badName : String)
    (rest : List (String × Option Bytes)) :
    (ingestFrames clearFrames
        (good.map (fun g => (g.1, some g.2)) ++ (badName, none) :: rest)).2
      = false
    ∧ (ingestFrames clearFrames
        (good.map (fun g => (g.1, some g.2)) ++ (badName, none) :: rest)).1
      = ingestAll clearFrames good
    ∧ ((good.map fun f => parseIntName f.1).Nodup →
      ∀ nm : String, ∀ b : Bytes, (nm, b) ∈ good →
      getFrame (ingestFrames clearFrames
          (good.map (fun g => (g.1, some g.2)) ++ (badName, none) :: rest)).1
        (parseIntName nm) = some b) := by
  rw [ingestFrames_append]
  refine ⟨rfl, rfl, ?_⟩
  intro hnd nm b hmem
  show getFrame (ingestAll clearFrames good) (parseIntName nm) = some b
  rw [getFrame_ingestAll,
    lastOcc_of_mem_nodup good (parseIntName nm) nm b hnd hmem rfl]

/--
C6 witness: candidate `"0"` succeeds, candidate `"1"`'s read throws:
status is error and frame 0 is still retrievable.
-/
theorem C6_midway_failure_witness :
    (ingestFrames clearFrames [("0", some [5]), ("1", none)]).2 = false
    ∧ getFrame (ingestFrames clearFrames [("0", some [5]), ("1", none)]).1
        (parseIntName "0") = some [5] := by
  have h := C6_midway_failure [("0", [5])] "1" []
  exact ⟨h.1, h.2.2 (by decide) "0" [5] (by decide)⟩

/-! ### C10: duplicate integer names collapse -/

/--
C10: when the candidate list's name-derived keys contain a duplicate
(e.g. `"7"` and `"007"`), all writes for a key land on that single key
and the candidate processed later wins — the final store maps every
key to the bytes of its last occurrence — so the stored frame count is
strictly less than the number of candidates.
-/
theorem C10_duplicate_names (files : List (String × Bytes))
    (hdup : ¬ (files.map fun f => parseIntName f.1).Nodup) :
    getFrameCount (ingestAll clearFrames files) < files.length
    ∧ ∀ k : Nat, getFrame (ingestAll clearFrames files) k
        = lastOcc files k := by
  constructor
  · rw [getFrameCount_ingestAll]
    calc (files.map fun f => parseIntName f.1).toFinset.card
        < (files.map fun f => parseIntName f.1).length :=
          toFinset_card_lt_of_not_nodup _ hdup
      _ = files.length := List.length_map _ _
  · intro k
    rw [getFrame_ingestAll]
    rcases h : lastOcc files k with _ | b
    · rfl
    · rfl

/--
C10 witness: names `"7"` and `"007"` both denote key 7; the stored
count is 1 < 2 and key 7 holds the later candidate's bytes.
-/
theorem C10_duplicate_names_witness :
    getFrameCount (ingestAll clearFrames [("7", [1]), ("007", [2])]) < 2
    ∧ getFrame (ingestAll clearFrames [("7", [1]), ("007", [2])]) 7
        = lastOcc [("7", [1]), ("007", [2])] 7 := by
  have h := C10_duplicate_names [("7", [1]), ("007", [2])] (by decide)
  exact ⟨h.1, h.2 7⟩

end IronReplay
